import Mathlib

/-!
Verification development for the `mcts` repository: a Monte Carlo Tree
Search engine (`mcts.py`) over a tic-tac-toe game (`games/tictactoe.py`),
with scoring strategies in `utils/scoring.py` and a second generation of
the same modules under the `mcts/` package (`mcts/utils/scoring.py`,
`mcts/games/core/player.py`).

The shallow embedding below translates the Python sources:
* node statistics (`n_plays`, `n_wins`, `n_ties`) are unbounded Python
  ints, modelled as `ℤ`;
* the search tree of `anytree` nodes is modelled as a rose tree; the
  Python code mutates nodes in place and walks parent pointers, the
  embedding rebuilds the tree along an explicit root-to-node index path;
* `np.random.choice(n, 1)[0]` (a uniformly chosen index) is modelled by
  an arbitrary natural number parameter reduced modulo the list length;
* Python floats are modelled as `ℚ`/`ℝ`, the `np.random.rand() * 1e-6`
  jitter of `ucb1` as an explicit parameter `ε` with `0 ≤ ε < 1e-6`;
* Python `==` on `Player` objects depends on the class: the engine is
  parametrised by the comparison predicate `peq` actually used, and the
  two `Player` classes of the repository are modelled separately
  (object identity for `games/tictactoe.py`, which defines no `__eq__`,
  value equality for `mcts/games/core/player.py`).
-/

namespace Mcts

/-- Search statistics of a tree node (`mcts.py`, `node_init_params`,
line 24).  The mutable `score` attribute is also initialised there; it is
written only by `select` (line 49) and read by `show_tree`, and no claim
mentions it, so it is not carried in the embedded statistics record. -/
structure Stats where
  n_plays : ℤ
  n_wins : ℤ
  n_ties : ℤ
deriving DecidableEq, Repr

/-- The part of a game snapshot the engine reads through the game
contract: `legal_plays()`, `last_play` and `current_player`
(`mcts.py` lines 39, 67-68, 98, 136, 173-174).  `M` is the move type,
`P` the player type. -/
structure GameSnap (M P : Type) where
  legal_plays : List M
  last_play : Option M
  current_player : P
deriving DecidableEq

/-- The search tree: each `anytree` node owns a game snapshot, its
statistics and its ordered list of children (`mcts.py` lines 25, 76). -/
inductive MTree (M P : Type) where
  | mk (game : GameSnap M P) (stats : Stats) (children : List (MTree M P))

/-- The game snapshot stored at the root of a (sub)tree. -/
def MTree.game : MTree M P → GameSnap M P
  | .mk g _ _ => g

/-- The statistics stored at the root of a (sub)tree. -/
def MTree.stats : MTree M P → Stats
  | .mk _ s _ => s

/-- The children of the root of a (sub)tree. -/
def MTree.children : MTree M P → List (MTree M P)
  | .mk _ _ cs => cs

/-- Follow a root-to-node path of child indices; `none` if the path
leaves the tree.  This models reaching a node through the `anytree`
parent/child links. -/
def getNode : MTree M P → List ℕ → Option (MTree M P)
  | t, [] => some t
  | t, i :: p =>
    match t.children.get? i with
    | none => none
    | some c => getNode c p

/-- The `n_wins` increment an ancestor receives during backpropagation
(`mcts.py` lines 135-142): `n_wins` when the comparison
`node.game.current_player == ancestor.game.current_player` succeeds,
`n_plays - n_ties - n_wins` otherwise.  `peq` is the Python `==` on
players, `tp` the originating node's current player, `anc` the
ancestor's. -/
def ancestorWinsDelta (peq : P → P → Bool) (tp anc : P) (n_plays n_wins n_ties : ℤ) : ℤ :=
  if peq tp anc then n_wins else n_plays - n_ties - n_wins

/-- Core of `MonteCarloTreeSearch.backpropagate` (`mcts.py` lines
112-142), expressed on the root-to-node path `path`: the node at the end
of the path receives all three deltas (lines 123-125); every proper
ancestor along the path receives `n_plays`, `n_ties`, and the
player-dependent wins delta (lines 128-142).  `tp` is the current player
of the node the backpropagation starts from. -/
def bpAux (peq : P → P → Bool) (tp : P) (n_plays n_wins n_ties : ℤ) :
    MTree M P → List ℕ → MTree M P
  | .mk g s cs, [] =>
    .mk g ⟨s.n_plays + n_plays, s.n_wins + n_wins, s.n_ties + n_ties⟩ cs
  | .mk g s cs, i :: p =>
    .mk g
      ⟨s.n_plays + n_plays,
       s.n_wins + ancestorWinsDelta peq tp g.current_player n_plays n_wins n_ties,
       s.n_ties + n_ties⟩
      (match cs.get? i with
       | none => cs
       | some c => cs.set i (bpAux peq tp n_plays n_wins n_ties c p))

/-- `MonteCarloTreeSearch.backpropagate(node, n_plays, n_wins, n_ties)`
where `node` is the node reached from the root by `path`.  If the path
does not denote a node the tree is unchanged (in Python the node handle
always exists). -/
def backpropagate (peq : P → P → Bool) (n_plays n_wins n_ties : ℤ)
    (t : MTree M P) (path : List ℕ) : MTree M P :=
  match getNode t path with
  | none => t
  | some tgt => bpAux peq tgt.game.current_player n_plays n_wins n_ties t path

/-- The unexplored plays of a node (`mcts.py` lines 66-68):
legal plays that are not the `last_play` of an existing child. -/
def unexploredPlays [DecidableEq M] (parent : MTree M P) : List M :=
  let already_played := parent.children.map (fun c => c.game.last_play)
  parent.game.legal_plays.filter (fun play => decide (some play ∉ already_played))

/-- `MonteCarloTreeSearch.expand(parent)` (`mcts.py` lines 59-83).
`pm` is the game's `play` applied to a deep copy of the parent snapshot
(line 73-74); `idx` models the random index drawn by
`np.random.choice(len(unexplored_plays), 1)[0]` (line 71).  Returns the
updated parent (the new child is appended to its children, line 76)
together with the node the Python function returns: the new child, or
the parent itself when every play is already explored (lines 79-83). -/
def expand [DecidableEq M] (pm : GameSnap M P → M → GameSnap M P) (idx : ℕ)
    (parent : MTree M P) : MTree M P × MTree M P :=
  let unexplored_plays := unexploredPlays parent
  if h : unexplored_plays ≠ [] then
    let selected_play :=
      unexplored_plays.get
        ⟨idx % unexplored_plays.length, Nat.mod_lt idx (List.length_pos.mpr h)⟩
    let child_game := pm parent.game selected_play
    let child : MTree M P := .mk child_game ⟨0, 0, 0⟩ []
    (.mk parent.game parent.stats (parent.children ++ [child]), child)
  else
    (parent, parent)

/-- Rebuild the tree with `f` applied to the node reached by `path`;
unchanged if the path leaves the tree.  Used to lift the node-local
`expand` to the whole tree. -/
def modifyAt (f : MTree M P → MTree M P) : MTree M P → List ℕ → MTree M P
  | t, [] => f t
  | .mk g s cs, i :: p =>
    .mk g s
      (match cs.get? i with
       | none => cs
       | some c => cs.set i (modifyAt f c p))

/-- `expand` applied to the node of the tree reached by `path` (as the
search loop does to the node chosen by `select`, `mcts.py` line 200). -/
def expandAt [DecidableEq M] (pm : GameSnap M P → M → GameSnap M P) (idx : ℕ)
    (t : MTree M P) (path : List ℕ) : MTree M P :=
  modifyAt (fun node => (expand pm idx node).1) t path

/-- One simulated game's contribution to the win/tie counters
(`mcts.py` lines 104-107): the finished rollout's `winner()` is compared
with `==` against the node's player; a `None` winner counts as a tie. -/
def rolloutUpdate (peq : P → P → Bool) (node_player : P) :
    ℕ × ℕ → Option P → ℕ × ℕ
  | (n_wins, n_ties), some w =>
    if peq w node_player then (n_wins + 1, n_ties) else (n_wins, n_ties)
  | (n_wins, n_ties), none => (n_wins, n_ties + 1)

/-- The accumulation loop of `MonteCarloTreeSearch.simulate`
(`mcts.py` lines 93-110).  Each random rollout (lines 97-102, a playout
of a deep copy of the node's game to a terminal state) is abstracted by
its resulting `winner()`: one `Option P` per rollout, so `outcomes` has
one entry per simulated game. -/
def simulateAux (peq : P → P → Bool) (node_player : P) :
    ℕ × ℕ → List (Option P) → ℕ × ℕ
  | acc, [] => acc
  | acc, w :: rest => simulateAux peq node_player (rolloutUpdate peq node_player acc w) rest

/-- `MonteCarloTreeSearch.simulate(node, n_simulations)`: the counters
start at zero (lines 93-94) and are folded over the `n_simulations`
rollout outcomes; the pair `(n_wins, n_ties)` is returned (line 110). -/
def simulate (peq : P → P → Bool) (node_player : P) (outcomes : List (Option P)) : ℕ × ℕ :=
  simulateAux peq node_player (0, 0) outcomes

mutual

/-- Number of nodes of a tree (termination measure for the level-order
traversal below). -/
def sizeT : MTree M P → ℕ
  | .mk _ _ cs => 1 + sizeF cs

/-- Total number of nodes of a forest. -/
def sizeF : List (MTree M P) → ℕ
  | [] => 0
  | t :: ts => sizeT t + sizeF ts

end

/-- Level-order grouping of a forest, as produced by `anytree`'s
`LevelOrderGroupIter`: the list of non-empty levels, each level being
the concatenation of the children of the previous one.  The traversal
of the Python iterator terminates because levels become empty; here the
recursion is paced by a fuel argument, and `sizeT root` fuel (one unit
per non-empty level, of which there are at most as many as nodes) is
always enough. -/
def levelsAux : ℕ → List (MTree M P) → List (List (MTree M P))
  | _, [] => []
  | 0, _ :: _ => []
  | fuel + 1, t :: ts => (t :: ts) :: levelsAux fuel ((t :: ts).flatMap MTree.children)

/-- `list(LevelOrderGroupIter(self.root))` (`mcts.py` line 216). -/
def levelGroups (t : MTree M P) : List (List (MTree M P)) :=
  levelsAux (sizeT t) [t]

/-- A node's readout score: the scoring function applied to the node's
own statistics (`mcts.py` line 219). -/
def scoreOf (f : ℤ → ℤ → ℤ → ℚ) (n : MTree M P) : ℚ :=
  f n.stats.n_plays n.stats.n_wins n.stats.n_ties

/-- `np.argmin`: index of the first occurrence of the minimum of a list
(0 on the empty list, on which NumPy would raise). -/
def argminIdx : List ℚ → ℕ
  | [] => 0
  | x :: xs =>
    match xs.get? (argminIdx xs) with
    | none => 0
    | some y => if x ≤ y then 0 else argminIdx xs + 1

/-- `MonteCarloTreeSearch.recommended_play(scoring_func)` (`mcts.py`
lines 210-221).  Python list indexing that would raise `IndexError` is
modelled as an `Except.error`; the implicit `None` returned when the
level-group list is empty (unreachable, since the root's level is always
present) is `Except.ok none`. -/
def recommended_play (f : ℤ → ℤ → ℤ → ℚ) (root : MTree M P) : Except String (Option M) :=
  let nodes := levelGroups root
  if nodes.isEmpty then
    Except.ok none
  else
    match nodes.get? 1 with
    | none => Except.error "IndexError"
    | some level1_nodes =>
      let scores := level1_nodes.map (scoreOf f)
      match level1_nodes.get? (argminIdx scores) with
      | none => Except.error "IndexError"
      | some best_node => Except.ok best_node.game.last_play

/-- Pointwise statistics well-formedness: counters are non-negative and
wins plus ties never exceed plays. -/
def StatsOK (s : Stats) : Prop :=
  0 ≤ s.n_plays ∧ 0 ≤ s.n_wins ∧ 0 ≤ s.n_ties ∧ s.n_wins + s.n_ties ≤ s.n_plays

/-- `pred` holds for the statistics of every node of the tree. -/
inductive AllStats (pred : Stats → Prop) : MTree M P → Prop
  | mk {g : GameSnap M P} {s : Stats} {cs : List (MTree M P)} :
      pred s → (∀ c ∈ cs, AllStats pred c) →
      AllStats pred (.mk g s cs)

/-- Every non-root node's `n_plays` is at most its parent's `n_plays`. -/
inductive PlaysLE : MTree M P → Prop
  | mk {g : GameSnap M P} {s : Stats} {cs : List (MTree M P)} :
      (∀ c ∈ cs, (MTree.stats c).n_plays ≤ s.n_plays) →
      (∀ c ∈ cs, PlaysLE c) →
      PlaysLE (.mk g s cs)

/-- Combined structural invariant used in the preservation proofs:
every node has well-formed statistics and no node out-plays its
parent. -/
inductive TreeInv : MTree M P → Prop
  | mk {g : GameSnap M P} {s : Stats} {cs : List (MTree M P)} :
      StatsOK s →
      (∀ c ∈ cs, (MTree.stats c).n_plays ≤ s.n_plays) →
      (∀ c ∈ cs, TreeInv c) →
      TreeInv (.mk g s cs)

/-- The trees an engine can hold during a search (`mcts.py` lines 22-25
and 184-208): the root is created with zero statistics and no children
(`__init__`, lines 24-25), and each search iteration expands some node
and backpropagates a simulation batch from some node.  `select`
(lines 27-57) writes only the auxiliary `score` attribute and `simulate`
(lines 85-110) works on deep copies, so neither changes any node's
`n_plays`/`n_wins`/`n_ties` or the tree shape.  The side conditions of
`backprop_step` are exactly what `simulate` reports for a batch of
`n_plays` rollouts (non-negative counters, at most one of which is
incremented per rollout). -/
inductive Reachable [DecidableEq M] (pm : GameSnap M P → M → GameSnap M P)
    (peq : P → P → Bool) : MTree M P → Prop
  | init (g : GameSnap M P) : Reachable pm peq (.mk g ⟨0, 0, 0⟩ [])
  | expand_step {t : MTree M P} (path : List ℕ) (idx : ℕ) :
      Reachable pm peq t → Reachable pm peq (expandAt pm idx t path)
  | backprop_step {t : MTree M P} (path : List ℕ) (n_plays n_wins n_ties : ℤ)
      (hw : 0 ≤ n_wins) (ht : 0 ≤ n_ties) (hs : n_wins + n_ties ≤ n_plays) :
      Reachable pm peq t →
      Reachable pm peq (backpropagate peq n_plays n_wins n_ties t path)

end Mcts

namespace UtilsScoring

/-- `average_wins` of `utils/scoring.py` (lines 5-16): `plays` is
clamped to at least 1 "to avoid division by 0", then `wins / plays` is
returned.  There is no `plays == 0` sentinel in this module. -/
def average_wins (plays wins ties : ℤ) : ℚ :=
  (wins : ℚ) / ((max plays 1 : ℤ) : ℚ)

/-- `ucb1` of `utils/scoring.py` (lines 19-35): both `plays` and
`total_plays` are clamped to at least 1; the score is clamped to at
most 1.0 and a jitter `ε` (`np.random.rand() * 1e-6`) is added.
(The floating-point `sqrt`/`log` are modelled exactly over `ℝ`, hence
not executable.) -/
noncomputable def ucb1 (plays wins ties total_plays : ℤ) (c ε : ℝ) : ℝ :=
  let plays1 : ℤ := max plays 1
  let total1 : ℤ := max total_plays 1
  min ((wins : ℝ) / (plays1 : ℝ) + c * Real.sqrt (Real.log (total1 : ℝ) / (plays1 : ℝ))) 1 + ε

end UtilsScoring

namespace MctsScoring

/-- `average_wins` of `mcts/utils/scoring.py` (lines 5-17): `plays == 0`
returns the sentinel `99.` "to be sure that arm is played at least
once", otherwise `wins / plays`. -/
def average_wins (plays wins ties : ℤ) : ℚ :=
  if plays = 0 then 99 else (wins : ℚ) / (plays : ℚ)

/-- `ucb1` of `mcts/utils/scoring.py` (lines 20-37): `plays == 0`
returns the sentinel `99.`; otherwise the UCB score clamped to at most
1.0 plus the jitter `ε` (`np.random.rand() * 1e-6`).  (Modelled over
`ℝ`, hence not executable.) -/
noncomputable def ucb1 (plays wins ties total_plays : ℤ) (c ε : ℝ) : ℝ :=
  if plays = 0 then 99
  else
    min ((wins : ℝ) / (plays : ℝ) + c * Real.sqrt (Real.log (total_plays : ℝ) / (plays : ℝ))) 1
      + ε

end MctsScoring

namespace Players

/-- A Python `Player` object (`games/tictactoe.py` lines 11-18,
`mcts/games/core/player.py` lines 6-26).  `objId` models the object's
identity: `deepcopy` allocates a new object, so the copy carries a
fresh `objId` while `name`/`value`/`display` are copied unchanged. -/
structure PyPlayer where
  objId : ℕ
  name : String
  value : ℤ
  display : String
deriving DecidableEq, Repr

/-- Python `==` on the `Player` of `games/tictactoe.py`: the class
defines no `__eq__`, so `==` falls back to object identity. -/
def pyIs (p q : PyPlayer) : Bool :=
  p.objId == q.objId

/-- Python `==` on the `Player` of `mcts/games/core/player.py`
(lines 14-18): two players of the same class are equal iff they have
the same `value`. -/
def playerValueEq (p q : PyPlayer) : Bool :=
  p.value == q.value

/-- `copy.deepcopy` of a `Player`: same attribute values, fresh object
identity. -/
def deepcopyPlayer (newId : ℕ) (p : PyPlayer) : PyPlayer :=
  { p with objId := newId }

end Players

namespace TicTacToe

open Players

/-- `Player(name='A', value=1, display='O')` created by
`Game.__init__` (`games/tictactoe.py` line 36). -/
def playerA : PyPlayer := ⟨0, "A", 1, "O"⟩

/-- `Player(name='B', value=-1, display='X')` created by
`Game.__init__` (`games/tictactoe.py` line 36). -/
def playerB : PyPlayer := ⟨1, "B", -1, "X"⟩

/-- `self.players_values` (`games/tictactoe.py` line 37). -/
def players_values : List ℤ := [playerA.value, playerB.value]

/-- The `Game` state of `games/tictactoe.py` (lines 27-39).  The board
is a `board_size × board_size` integer grid; `sums` caches the axis
sums used by `winner` and starts empty (`np.array([])`, line 34);
`current_player` starts as player A (the first element of the
two-player cycle). -/
structure Game where
  board_size : ℕ
  state : List (List ℤ)
  save_history : Bool
  history : List (List (List ℤ))
  last_play : Option (ℕ × ℕ)
  sums : List ℤ
  current_player : PyPlayer
deriving DecidableEq, Repr

/-- `Game.__init__(board_size, save_history)` (lines 27-39). -/
def init (board_size : ℕ) (save_history : Bool) : Game :=
  let st := List.replicate board_size (List.replicate board_size (0 : ℤ))
  ⟨board_size, st, save_history, [st], none, [], playerA⟩

/-- Entry `state[i][j]` of the board (0 outside the grid; all reads in
the source stay inside the grid). -/
def cell (st : List (List ℤ)) (i j : ℕ) : ℤ :=
  (((st.get? i).getD []).get? j).getD 0

/-- `np.sum(state, axis=0)[j]`: sum of column `j`. -/
def colSum (st : List (List ℤ)) (n j : ℕ) : ℤ :=
  ((List.range n).map fun i => cell st i j).sum

/-- `np.sum(state, axis=1)[i]`: sum of row `i`. -/
def rowSum (st : List (List ℤ)) (n i : ℕ) : ℤ :=
  ((List.range n).map fun j => cell st i j).sum

/-- `np.sum(np.diag(state))`: sum of the main diagonal. -/
def diagSum (st : List (List ℤ)) (n : ℕ) : ℤ :=
  ((List.range n).map fun i => cell st i i).sum

/-- `np.sum(np.diag(state[::-1]))`: sum of the anti-diagonal
(`state[::-1]` reverses the rows, so entry `i` of its diagonal is
`state[n-1-i][i]`). -/
def antiDiagSum (st : List (List ℤ)) (n : ℕ) : ℤ :=
  ((List.range n).map fun i => cell st (n - 1 - i) i).sum

/-- The `self.sums` vector recomputed at the end of `Game.play`
(lines 126-130): column sums, then row sums, then the two diagonal
sums. -/
def computeSums (n : ℕ) (st : List (List ℤ)) : List ℤ :=
  ((List.range n).map fun j => colSum st n j)
    ++ ((List.range n).map fun i => rowSum st n i)
    ++ [diagSum st n, antiDiagSum st n]

/-- `Game.winner` (lines 55-66): the first player (in `self.players`
order) whose value times the board size appears in the cached `sums`;
`none` if neither wins. -/
def winner (g : Game) : Option PyPlayer :=
  if (g.board_size : ℤ) * playerA.value ∈ g.sums then some playerA
  else if (g.board_size : ℤ) * playerB.value ∈ g.sums then some playerB
  else none

/-- `Game.legal_plays` (lines 41-53): empty when there is a winner;
otherwise the coordinates of the cells whose value is none of the
players' values, in `np.argwhere` row-major order. -/
def legal_plays (g : Game) : List (ℕ × ℕ) :=
  match winner g with
  | some _ => []
  | none =>
    ((List.range g.board_size).flatMap fun i =>
        (List.range g.board_size).map fun j => (i, j)).filter
      fun pos => decide (cell g.state pos.1 pos.2 ∉ players_values)

/-- `state[selected_move] = current_player.value` (line 117). -/
def setCell (st : List (List ℤ)) (i j : ℕ) (v : ℤ) : List (List ℤ) :=
  match st.get? i with
  | none => st
  | some row => st.set i (row.set j v)

/-- The state/history/player/sums updates done by `Game.play` once a
move is selected (lines 116-130).  `next(self.players_gen)` on the
two-player cycle yields the other player. -/
def applyMove (g : Game) (m : ℕ × ℕ) : Game :=
  let new_state := setCell g.state m.1 m.2 g.current_player.value
  { g with
    state := new_state
    history := if g.save_history then g.history ++ [new_state] else [new_state]
    current_player := if g.current_player.value = playerA.value then playerB else playerA
    last_play := some m
    sums := computeSums g.board_size new_state }

/-- `Game.play(move)` (lines 96-130).  A provided move that is not
legal raises `ValueError` (line 110); with no move provided,
`np.random.choice(len(legal_plays), 1)` raises `ValueError` when
`legal_plays` is empty, otherwise a random legal move is selected
(`ridx` models the random draw, reduced modulo the list length:
`legal.get? (ridx % legal.length)` is `none` exactly when the list is
empty). -/
def play (ridx : ℕ) (move : Option (ℕ × ℕ)) (g : Game) : Except String Game :=
  let legal := legal_plays g
  match move with
  | some m =>
    if m ∈ legal then Except.ok (applyMove g m)
    else Except.error "ValueError: Selected move is illegal"
  | none =>
    match legal.get? (ridx % legal.length) with
    | none => Except.error "ValueError: cannot sample from an empty set of legal plays"
    | some m => Except.ok (applyMove g m)

/-- Helper for building concrete test positions: `play` with a legal
move, keeping the state unchanged on error. -/
def playD (ridx : ℕ) (move : Option (ℕ × ℕ)) (g : Game) : Game :=
  match play ridx move g with
  | .ok g2 => g2
  | .error _ => g

/-- A finished game: A plays (0,0), (0,1), (0,2) (top row), B plays
(1,0), (1,1).  A wins, so `legal_plays` is empty. -/
def demoGame : Game :=
  playD 0 (some (0, 2))
    (playD 0 (some (1, 1))
      (playD 0 (some (0, 1))
        (playD 0 (some (1, 0))
          (playD 0 (some (0, 0)) (init 3 true)))))

end TicTacToe

namespace Fixtures

open Mcts Players

/-- A toy move application on snapshots over `M = ℕ`, `P = ℤ` used to
instantiate the engine for concrete checks. -/
def pmNat : GameSnap ℕ ℤ → ℕ → GameSnap ℕ ℤ := fun g m =>
  ⟨g.legal_plays.filter (fun x => decide (x ≠ m)), some m, -g.current_player⟩

/-- Value equality on integer player identifiers. -/
def peqInt : ℤ → ℤ → Bool := fun a b => a == b

/-- A child of `fullParent` whose `last_play` covers the only legal
play of its parent. -/
def fullChild : MTree (ℕ × ℕ) ℤ := .mk ⟨[], some (0, 0), -1⟩ ⟨1, 1, 0⟩ []

/-- A fully expanded node: its single legal play `(0,0)` is already the
`last_play` of an existing child. -/
def fullParent : MTree (ℕ × ℕ) ℤ := .mk ⟨[(0, 0)], none, 1⟩ ⟨1, 0, 0⟩ [fullChild]

/-- A toy move application over `M = ℕ × ℕ`, `P = ℤ`. -/
def pmPair : GameSnap (ℕ × ℕ) ℤ → (ℕ × ℕ) → GameSnap (ℕ × ℕ) ℤ := fun g m =>
  ⟨g.legal_plays.filter (fun x => decide (x ≠ m)), some m, -g.current_player⟩

/-- A three-node root chain with zero statistics, mirroring the
`test_backpropagate2` scenario of `test/test_mcts.py`: the root's game
is the original `Game()` whose current player is A (object id 0); the
depth-1 and depth-2 games are deep copies, so their players are fresh
objects (ids 3 and 5) — the depth-2 current player has the same value
as the root's (player A: two moves have been played), the depth-1 one
is player B. -/
def chain : MTree ℕ PyPlayer :=
  .mk ⟨[], none, TicTacToe.playerA⟩ ⟨0, 0, 0⟩
    [.mk ⟨[], some 1, deepcopyPlayer 3 TicTacToe.playerB⟩ ⟨0, 0, 0⟩
      [.mk ⟨[], some 2, deepcopyPlayer 5 TicTacToe.playerA⟩ ⟨0, 0, 0⟩ []]]

/-- A fresh two-move snapshot used as an initial root game. -/
def snap0 : GameSnap ℕ ℤ := ⟨[1, 2], none, 1⟩

/-- Depth-1 node with a high own-perspective win rate. -/
def recChild1 : MTree ℕ ℤ := .mk ⟨[], some 1, -1⟩ ⟨10, 9, 0⟩ []

/-- Depth-1 node with a low own-perspective win rate. -/
def recChild2 : MTree ℕ ℤ := .mk ⟨[], some 2, -1⟩ ⟨10, 2, 1⟩ []

/-- A two-children root for exercising `recommended_play`. -/
def recRoot : MTree ℕ ℤ := .mk ⟨[1, 2], none, 1⟩ ⟨20, 11, 1⟩ [recChild1, recChild2]

end Fixtures

/-! ## Theorems -/

/-- C2 counterexample: in `utils/scoring.py` (the module `mcts.py`
imports), `average_wins` has no `plays == 0` sentinel — the score of an
unexplored arm is `0 / 1 = 0`, which does not exceed the score `1` of
an explored arm with `plays = 1`, `wins = 1`; the claim is false for
these scoring functions. -/
theorem utils_average_wins_no_sentinel :
    UtilsScoring.average_wins 0 0 0 < UtilsScoring.average_wins 1 1 0 := by
  norm_num [UtilsScoring.average_wins]

/-- C2 (amended): for the `mcts/utils/scoring.py` scoring functions,
`plays == 0` returns the sentinel `99`, which strictly exceeds every
score attainable by an explored arm (`plays > 0`, `0 ≤ wins ≤ plays`,
jitter below `1e-6`). -/
theorem mcts_scoring_sentinel_dominates
    (plays wins ties total_plays wins0 ties0 total0 : ℤ) (c ε ε0 : ℝ)
    (hp : 0 < plays) (hw0 : 0 ≤ wins) (hwp : wins ≤ plays) (hε : ε < 1e-6) :
    MctsScoring.average_wins 0 wins0 ties0 = 99 ∧
    MctsScoring.average_wins plays wins ties < MctsScoring.average_wins 0 wins0 ties0 ∧
    MctsScoring.ucb1 0 wins0 ties0 total0 c ε0 = 99 ∧
    MctsScoring.ucb1 plays wins ties total_plays c ε <
      MctsScoring.ucb1 0 wins0 ties0 total0 c ε0 := by
  have hp0 : plays ≠ 0 := hp.ne'
  have h990 : MctsScoring.average_wins 0 wins0 ties0 = 99 := by
    simp [MctsScoring.average_wins]
  have hu990 : MctsScoring.ucb1 0 wins0 ties0 total0 c ε0 = 99 := by
    simp [MctsScoring.ucb1]
  refine ⟨h990, ?_, hu990, ?_⟩
  · rw [h990, MctsScoring.average_wins, if_neg hp0]
    have hple : (wins : ℚ) / (plays : ℚ) ≤ 1 := by
      rw [div_le_one (by exact_mod_cast hp)]
      exact_mod_cast hwp
    linarith
  · rw [hu990, MctsScoring.ucb1, if_neg hp0]
    have hmin :
        min ((wins : ℝ) / (plays : ℝ)
            + c * Real.sqrt (Real.log (total_plays : ℝ) / (plays : ℝ))) 1 ≤ 1 :=
      min_le_right _ _
    have : (1e-6 : ℝ) < 98 := by norm_num
    linarith

/-- C2 witness: the amended sentinel property at a concrete explored
arm (`plays=5`, `wins=3`, `ties=1`, `total_plays=10`, `c=1`, no
jitter). -/
theorem mcts_scoring_sentinel_dominates_witness :
    MctsScoring.average_wins 0 0 0 = 99 ∧
    MctsScoring.average_wins 5 3 1 < MctsScoring.average_wins 0 0 0 ∧
    MctsScoring.ucb1 0 0 0 10 1 0 = 99 ∧
    MctsScoring.ucb1 5 3 1 10 1 0 < MctsScoring.ucb1 0 0 0 10 1 0 :=
  mcts_scoring_sentinel_dominates 5 3 1 10 0 0 10 1 0 0
    (by norm_num) (by norm_num) (by norm_num) (by norm_num)

/-- C8: calling `expand` on a node whose unexplored-plays list is empty
returns that same node (as both the updated tree and the returned
node), creates no new child, and leaves the child count unchanged. -/
theorem expand_fully_expanded_noop {M P : Type} [DecidableEq M]
    (pm : Mcts.GameSnap M P → M → Mcts.GameSnap M P) (idx : ℕ)
    (parent : Mcts.MTree M P) (h : Mcts.unexploredPlays parent = []) :
    Mcts.expand pm idx parent = (parent, parent) ∧
    (Mcts.expand pm idx parent).1.children.length = parent.children.length := by
  have heq : Mcts.expand pm idx parent = (parent, parent) := by
    unfold Mcts.expand
    simp [h]
  exact ⟨heq, by rw [heq]⟩

/-- C8 witness: a node whose single legal play `(0,0)` is already the
`last_play` of a child is left untouched by `expand`. -/
theorem expand_fully_expanded_noop_witness :
    Mcts.unexploredPlays Fixtures.fullParent = [] ∧
    Mcts.expand Fixtures.pmPair 0 Fixtures.fullParent =
      (Fixtures.fullParent, Fixtures.fullParent) :=
  ⟨by decide, (expand_fully_expanded_noop Fixtures.pmPair 0 Fixtures.fullParent (by decide)).1⟩

/-- Helper: each rollout outcome increments the accumulated win/tie
counters by at most one in total. -/
theorem simulateAux_sum_le {P : Type} (peq : P → P → Bool) (node_player : P) :
    ∀ (outcomes : List (Option P)) (acc : ℕ × ℕ),
      (Mcts.simulateAux peq node_player acc outcomes).1
        + (Mcts.simulateAux peq node_player acc outcomes).2
        ≤ acc.1 + acc.2 + outcomes.length := by
  intro outcomes
  induction outcomes with
  | nil => intro acc; simp [Mcts.simulateAux]
  | cons w rest ih =>
    intro acc
    rw [Mcts.simulateAux]
    refine le_trans (ih _) ?_
    rcases acc with ⟨nw, nt⟩
    rcases w with _ | q <;> simp [Mcts.rolloutUpdate] <;> try omega
    split <;> simp <;> omega

/-- C9: for every batch of `n ≥ 1` rollouts, `simulate` returns
non-negative win and tie counters whose sum is at most `n` (each
rollout increments at most one of the two counters, by one). -/
theorem simulate_wins_ties_bound {P : Type} (peq : P → P → Bool) (node_player : P)
    (outcomes : List (Option P)) (n : ℕ) (hn : 1 ≤ n) (hlen : outcomes.length = n) :
    0 ≤ (Mcts.simulate peq node_player outcomes).1 ∧
    0 ≤ (Mcts.simulate peq node_player outcomes).2 ∧
    (Mcts.simulate peq node_player outcomes).1
      + (Mcts.simulate peq node_player outcomes).2 ≤ n := by
  refine ⟨Nat.zero_le _, Nat.zero_le _, ?_⟩
  have := simulateAux_sum_le peq node_player outcomes (0, 0)
  simpa [Mcts.simulate, hlen] using this

/-- C9 witness: three rollouts (a win for the node's player, a tie, and
a win for the other player). -/
theorem simulate_wins_ties_bound_witness :
    0 ≤ (Mcts.simulate Fixtures.peqInt 1 [some 1, none, some 2]).1 ∧
    0 ≤ (Mcts.simulate Fixtures.peqInt 1 [some 1, none, some 2]).2 ∧
    (Mcts.simulate Fixtures.peqInt 1 [some 1, none, some 2]).1
      + (Mcts.simulate Fixtures.peqInt 1 [some 1, none, some 2]).2 ≤ 3 :=
  simulate_wins_ties_bound Fixtures.peqInt 1 [some 1, none, some 2] 3
    (by norm_num) (by decide)

/-- C10: calling `Game.play` with no move on a state with no legal
plays is rejected with a `ValueError` (raised by sampling a random move
from an empty list); it is not a silent no-op. -/
theorem play_none_terminal_errors (g : TicTacToe.Game) (ridx : ℕ)
    (h : TicTacToe.legal_plays g = []) :
    TicTacToe.play ridx none g =
      Except.error "ValueError: cannot sample from an empty set of legal plays" := by
  unfold TicTacToe.play
  simp [h]

/-- C10 witness: on a finished game (player A has completed the top
row) `legal_plays` is empty and `play` with no move errors. -/
theorem play_none_terminal_errors_witness :
    TicTacToe.legal_plays TicTacToe.demoGame = [] ∧
    TicTacToe.play 5 none TicTacToe.demoGame =
      Except.error "ValueError: cannot sample from an empty set of legal plays" :=
  ⟨by decide, play_none_terminal_errors TicTacToe.demoGame 5 (by decide)⟩

/-- C1 (code-bug evaluation): backpropagating `n_plays=20`, `n_wins=6`,
`n_ties=0` from a depth-2 node on a zeroed three-node chain (the
`test_backpropagate2` scenario of `test/test_mcts.py`).  The root's
current player has the same *value* as the node's (player A both), so
the claim — and the repository's own test — require the root to gain 6
wins, which is what happens under the value equality of
`mcts/games/core/player.py`; but under the identity `==` of the
`games/tictactoe.py` `Player` actually used by the engine (no
`__eq__`, snapshots are deep copies) the comparison is always false and
the root gains `20 - 0 - 6 = 14` wins instead. -/
theorem backpropagate_player_identity_divergence :
    (Mcts.backpropagate Players.pyIs 20 6 0 Fixtures.chain [0, 0]).stats.n_wins = 14 ∧
    (Mcts.backpropagate Players.playerValueEq 20 6 0 Fixtures.chain [0, 0]).stats.n_wins = 6
      := by
  decide

/-- Helper: the level groups of a tree start with the root level. -/
theorem levelGroups_eq {M P : Type} (g : Mcts.GameSnap M P) (s : Mcts.Stats)
    (cs : List (Mcts.MTree M P)) :
    Mcts.levelGroups (.mk g s cs) =
      [Mcts.MTree.mk g s cs] :: Mcts.levelsAux (Mcts.sizeF cs) cs := by
  unfold Mcts.levelGroups
  have hsz : Mcts.sizeT (Mcts.MTree.mk g s cs) = Mcts.sizeF cs + 1 := by
    rw [Mcts.sizeT]; omega
  rw [hsz, Mcts.levelsAux]
  simp [Mcts.MTree.children]

/-- Helper: every tree has at least one node. -/
theorem sizeT_pos {M P : Type} (t : Mcts.MTree M P) : 1 ≤ Mcts.sizeT t := by
  cases t; rw [Mcts.sizeT]; omega

/-- Helper: the second level group of a tree with children is exactly
its list of children. -/
theorem levelGroups_get_one {M P : Type} (g : Mcts.GameSnap M P) (s : Mcts.Stats)
    (cs : List (Mcts.MTree M P)) (h : cs ≠ []) :
    (Mcts.levelGroups (.mk g s cs)).get? 1 = some cs := by
  rw [levelGroups_eq]
  rcases cs with _ | ⟨c, cs'⟩
  · exact absurd rfl h
  obtain ⟨k, hk⟩ : ∃ k, Mcts.sizeF (c :: cs') = k + 1 := by
    have h1 := sizeT_pos c
    rw [Mcts.sizeF]
    exact ⟨Mcts.sizeT c + Mcts.sizeF cs' - 1, by omega⟩
  rw [List.get?_cons_succ, hk, Mcts.levelsAux, List.get?_cons_zero]

/-- C3 (code-bug evaluation): on a root with no children,
`recommended_play` raises `IndexError` instead of returning an absent
result — the level-group list is `[[root]]`, never empty, so the
`if nodes:` guard passes and `nodes[1]` is out of range. -/
theorem recommended_play_childless_root_errors {M P : Type}
    (f : ℤ → ℤ → ℤ → ℚ) (g : Mcts.GameSnap M P) (s : Mcts.Stats) :
    Mcts.recommended_play f (Mcts.MTree.mk g s []) = Except.error "IndexError" := by
  unfold Mcts.recommended_play
  rw [levelGroups_eq]
  simp [Mcts.levelsAux]

/-- Helper: `argminIdx` of a non-empty list is a valid index. -/
theorem argminIdx_lt : ∀ (l : List ℚ), l ≠ [] → Mcts.argminIdx l < l.length := by
  intro l
  induction l with
  | nil => intro h; exact absurd rfl h
  | cons x xs ih =>
    intro _
    rw [Mcts.argminIdx]
    rcases hxs : xs.get? (Mcts.argminIdx xs) with _ | y
    · simp
    · dsimp only
      split
      · simp
      · have hlt : Mcts.argminIdx xs < xs.length := by
          apply ih
          intro hnil
          rw [hnil] at hxs
          exact Option.noConfusion hxs
        simpa using Nat.succ_lt_succ hlt

/-- Helper: the element at `argminIdx` is a lower bound for every
element of the list (NumPy's `argmin` returns the first index of the
minimum). -/
theorem argminIdx_min : ∀ (l : List ℚ) (j : ℕ) (y : ℚ), l.get? j = some y →
    ∃ m, l.get? (Mcts.argminIdx l) = some m ∧ m ≤ y := by
  intro l
  induction l with
  | nil => intro j y hy; exact Option.noConfusion hy
  | cons x xs ih =>
    intro j y hy
    rw [Mcts.argminIdx]
    rcases hxs : xs.get? (Mcts.argminIdx xs) with _ | m0
    · have hxsnil : xs = [] := by
        by_contra hne
        rw [List.get?_eq_get (argminIdx_lt xs hne)] at hxs
        exact Option.noConfusion hxs
      subst hxsnil
      rcases j with _ | j'
      · refine ⟨x, by simp, ?_⟩
        have hxy : x = y := by simpa using hy
        exact le_of_eq hxy
      · simp at hy
    · dsimp only
      by_cases hxm : x ≤ m0
      · rw [if_pos hxm]
        refine ⟨x, by simp, ?_⟩
        rcases j with _ | j'
        · have hxy : x = y := by simpa using hy
          exact le_of_eq hxy
        · obtain ⟨m, hm, hle⟩ := ih j' y (by simpa using hy)
          rw [hxs] at hm
          have hm0 : m0 = m := by injection hm
          exact le_trans hxm (hm0 ▸ hle)
      · rw [if_neg hxm]
        refine ⟨m0, by simpa using hxs, ?_⟩
        rcases j with _ | j'
        · have hxy : x = y := by simpa using hy
          exact hxy ▸ le_of_lt (lt_of_not_le hxm)
        · obtain ⟨m, hm, hle⟩ := ih j' y (by simpa using hy)
          rw [hxs] at hm
          have hm0 : m0 = m := by injection hm
          exact hm0 ▸ hle

/-- C5: when the root has at least one child, `recommended_play`
returns `ok` with the `last_play` of a depth-1 child whose score —
computed by the given scoring function from that child's own
statistics — is minimal among all depth-1 children (argmin, not
argmax). -/
theorem recommended_play_argmin {M P : Type} (f : ℤ → ℤ → ℤ → ℚ)
    (g : Mcts.GameSnap M P) (s : Mcts.Stats) (cs : List (Mcts.MTree M P))
    (h : cs ≠ []) :
    ∃ (i : ℕ) (hi : i < cs.length),
      Mcts.recommended_play f (Mcts.MTree.mk g s cs) =
        Except.ok ((cs.get ⟨i, hi⟩).game.last_play) ∧
      ∀ (j : ℕ) (hj : j < cs.length),
        Mcts.scoreOf f (cs.get ⟨i, hi⟩) ≤ Mcts.scoreOf f (cs.get ⟨j, hj⟩) := by
  have hlen : (cs.map (Mcts.scoreOf f)).length = cs.length := List.length_map _ _
  have hne : cs.map (Mcts.scoreOf f) ≠ [] := by
    intro hnil
    exact h (List.map_eq_nil_iff.mp hnil)
  have hi : Mcts.argminIdx (cs.map (Mcts.scoreOf f)) < cs.length := by
    rw [← hlen]; exact argminIdx_lt _ hne
  refine ⟨Mcts.argminIdx (cs.map (Mcts.scoreOf f)), hi, ?_, ?_⟩
  · have hnodes1 : (Mcts.levelGroups (Mcts.MTree.mk g s cs)).get? 1 = some cs :=
      levelGroups_get_one g s cs h
    have hget : cs.get? (Mcts.argminIdx (cs.map (Mcts.scoreOf f))) =
        some (cs.get ⟨Mcts.argminIdx (cs.map (Mcts.scoreOf f)), hi⟩) :=
      List.get?_eq_get hi
    unfold Mcts.recommended_play
    rw [levelGroups_eq] at hnodes1 ⊢
    simp only [List.isEmpty_cons, Bool.false_eq_true, if_false]
    rw [hnodes1]
    dsimp only
    rw [hget]
  · intro j hj
    have hj' : (cs.map (Mcts.scoreOf f)).get? j =
        some (Mcts.scoreOf f (cs.get ⟨j, hj⟩)) := by
      rw [List.get?_map, List.get?_eq_get hj]
      rfl
    obtain ⟨m, hm, hle⟩ := argminIdx_min _ j _ hj'
    have hi' : (cs.map (Mcts.scoreOf f)).get? (Mcts.argminIdx (cs.map (Mcts.scoreOf f))) =
        some (Mcts.scoreOf f (cs.get ⟨Mcts.argminIdx (cs.map (Mcts.scoreOf f)), hi⟩)) := by
      rw [List.get?_map, List.get?_eq_get hi]
      rfl
    rw [hi'] at hm
    have : Mcts.scoreOf f (cs.get ⟨Mcts.argminIdx (cs.map (Mcts.scoreOf f)), hi⟩) = m := by
      injection hm
    rw [this]
    exact hle

/-- C5 witness: a root with two children (scores 0.9 and 0.2 under
`average_wins`); the recommendation is the `last_play` of a
minimal-score child. -/
theorem recommended_play_argmin_witness :
    ∃ (i : ℕ) (hi : i < ([Fixtures.recChild1, Fixtures.recChild2]).length),
      Mcts.recommended_play UtilsScoring.average_wins Fixtures.recRoot =
        Except.ok ((([Fixtures.recChild1, Fixtures.recChild2]).get ⟨i, hi⟩).game.last_play) ∧
      ∀ (j : ℕ) (hj : j < ([Fixtures.recChild1, Fixtures.recChild2]).length),
        Mcts.scoreOf UtilsScoring.average_wins
            (([Fixtures.recChild1, Fixtures.recChild2]).get ⟨i, hi⟩) ≤
          Mcts.scoreOf UtilsScoring.average_wins
            (([Fixtures.recChild1, Fixtures.recChild2]).get ⟨j, hj⟩) :=
  recommended_play_argmin UtilsScoring.average_wins ⟨[1, 2], none, 1⟩ ⟨20, 11, 1⟩
    [Fixtures.recChild1, Fixtures.recChild2] (List.cons_ne_nil _ _)

/-- Helper: `expand` does not change the expanded node's own
statistics. -/
theorem expand_fst_stats {M P : Type} [DecidableEq M]
    (pm : Mcts.GameSnap M P → M → Mcts.GameSnap M P) (idx : ℕ) (t : Mcts.MTree M P) :
    ((Mcts.expand pm idx t).1).stats = t.stats := by
  rcases t with ⟨g, s, cs⟩
  unfold Mcts.expand
  dsimp only
  split <;> rfl

/-- Helper: `expand` preserves the combined tree invariant (the new
child starts with zero statistics, and zero plays is at most the
parent's non-negative play count). -/
theorem treeInv_expand_fst {M P : Type} [DecidableEq M]
    (pm : Mcts.GameSnap M P → M → Mcts.GameSnap M P) (idx : ℕ)
    (t : Mcts.MTree M P) (hti : Mcts.TreeInv t) :
    Mcts.TreeInv (Mcts.expand pm idx t).1 := by
  rcases t with ⟨g, s, cs⟩
  cases hti with
  | mk hok hch hinv =>
    unfold Mcts.expand
    dsimp only
    split
    · dsimp only [Mcts.MTree.game, Mcts.MTree.stats, Mcts.MTree.children]
      refine Mcts.TreeInv.mk hok ?_ ?_
      · intro c hc
        rcases List.mem_append.mp hc with hc | hc
        · exact hch c hc
        · rw [List.mem_singleton.mp hc]
          exact hok.1
      · intro c hc
        rcases List.mem_append.mp hc with hc | hc
        · exact hinv c hc
        · rw [List.mem_singleton.mp hc]
          exact Mcts.TreeInv.mk (by norm_num [Mcts.StatsOK]) (by simp) (by simp)
    · exact Mcts.TreeInv.mk hok hch hinv

/-- Helper: `modifyAt` with a statistics-preserving node function
preserves every node's play count at the modification point. -/
theorem modifyAt_plays {M P : Type} (f : Mcts.MTree M P → Mcts.MTree M P)
    (hfp : ∀ u, (f u).stats.n_plays = u.stats.n_plays) :
    ∀ (p : List ℕ) (t : Mcts.MTree M P),
      (Mcts.modifyAt f t p).stats.n_plays = t.stats.n_plays := by
  intro p
  induction p with
  | nil => intro t; rw [Mcts.modifyAt]; exact hfp t
  | cons i p ih =>
    intro t
    rcases t with ⟨g, s, cs⟩
    rw [Mcts.modifyAt]
    rcases hg : cs.get? i with _ | c <;> simp [hg, Mcts.MTree.stats]

/-- Helper: `modifyAt` preserves the combined tree invariant whenever
the node transformation does and keeps play counts unchanged. -/
theorem treeInv_modifyAt {M P : Type} (f : Mcts.MTree M P → Mcts.MTree M P)
    (hf : ∀ u, Mcts.TreeInv u → Mcts.TreeInv (f u))
    (hfp : ∀ u, (f u).stats.n_plays = u.stats.n_plays) :
    ∀ (p : List ℕ) (t : Mcts.MTree M P),
      Mcts.TreeInv t → Mcts.TreeInv (Mcts.modifyAt f t p) := by
  intro p
  induction p with
  | nil => intro t hti; rw [Mcts.modifyAt]; exact hf t hti
  | cons i p ih =>
    intro t hti
    rcases t with ⟨g, s, cs⟩
    cases hti with
    | mk hok hch hinv =>
      rw [Mcts.modifyAt]
      rcases hg : cs.get? i with _ | c
      · simp only [hg]
        exact Mcts.TreeInv.mk hok hch hinv
      · simp only [hg]
        have hcmem : c ∈ cs := List.get?_mem hg
        refine Mcts.TreeInv.mk hok ?_ ?_
        · intro d hd
          rcases List.mem_or_eq_of_mem_set hd with hd | hd
          · exact hch d hd
          · rw [hd, modifyAt_plays f hfp]
            exact hch c hcmem
        · intro d hd
          rcases List.mem_or_eq_of_mem_set hd with hd | hd
          · exact hinv d hd
          · rw [hd]
            exact ih c (hinv c hcmem)

/-- Helper: `bpAux` adds exactly `n_plays` to the top node's play
count. -/
theorem bpAux_plays {M P : Type} (peq : P → P → Bool) (tp : P)
    (n_plays n_wins n_ties : ℤ) (p : List ℕ) (t : Mcts.MTree M P) :
    (Mcts.bpAux peq tp n_plays n_wins n_ties t p).stats.n_plays
      = t.stats.n_plays + n_plays := by
  rcases t with ⟨g, s, cs⟩
  cases p <;> rfl

/-- Helper: `bpAux` preserves the combined tree invariant for any
simulation batch with non-negative wins and ties summing to at most
the number of plays. -/
theorem treeInv_bpAux {M P : Type} (peq : P → P → Bool) (tp : P)
    (n_plays n_wins n_ties : ℤ)
    (hw : 0 ≤ n_wins) (ht : 0 ≤ n_ties) (hs : n_wins + n_ties ≤ n_plays) :
    ∀ (p : List ℕ) (t : Mcts.MTree M P),
      Mcts.TreeInv t → Mcts.TreeInv (Mcts.bpAux peq tp n_plays n_wins n_ties t p) := by
  have hnp : 0 ≤ n_plays := by omega
  intro p
  induction p with
  | nil =>
    intro t hti
    rcases t with ⟨g, s, cs⟩
    cases hti with
    | mk hok hch hinv =>
      rw [Mcts.bpAux]
      refine Mcts.TreeInv.mk ?_ ?_ hinv
      · rcases hok with ⟨h1, h2, h3, h4⟩
        refine ⟨?_, ?_, ?_, ?_⟩ <;> dsimp only <;> omega
      · intro c hc
        have := hch c hc
        dsimp only
        omega
  | cons i p ih =>
    intro t hti
    rcases t with ⟨g, s, cs⟩
    cases hti with
    | mk hok hch hinv =>
      rw [Mcts.bpAux]
      have hok2 : Mcts.StatsOK
          ⟨s.n_plays + n_plays,
           s.n_wins
             + Mcts.ancestorWinsDelta peq tp g.current_player n_plays n_wins n_ties,
           s.n_ties + n_ties⟩ := by
        rcases hok with ⟨h1, h2, h3, h4⟩
        unfold Mcts.ancestorWinsDelta
        refine ⟨?_, ?_, ?_, ?_⟩ <;> dsimp only
        · omega
        · split <;> omega
        · omega
        · split <;> omega
      rcases hg : cs.get? i with _ | c
      · simp only [hg]
        refine Mcts.TreeInv.mk hok2 ?_ hinv
        intro c hc
        have := hch c hc
        dsimp only
        omega
      · simp only [hg]
        have hcmem : c ∈ cs := List.get?_mem hg
        refine Mcts.TreeInv.mk hok2 ?_ ?_
        · intro d hd
          rcases List.mem_or_eq_of_mem_set hd with hd | hd
          · have := hch d hd
            dsimp only
            omega
          · rw [hd, bpAux_plays]
            have := hch c hcmem
            dsimp only
            omega
        · intro d hd
          rcases List.mem_or_eq_of_mem_set hd with hd | hd
          · exact hinv d hd
          · rw [hd]
            exact ih c (hinv c hcmem)

/-- Helper: `backpropagate` preserves the combined tree invariant. -/
theorem treeInv_backpropagate {M P : Type} (peq : P → P → Bool)
    (n_plays n_wins n_ties : ℤ)
    (hw : 0 ≤ n_wins) (ht : 0 ≤ n_ties) (hs : n_wins + n_ties ≤ n_plays)
    (t : Mcts.MTree M P) (path : List ℕ) (hti : Mcts.TreeInv t) :
    Mcts.TreeInv (Mcts.backpropagate peq n_plays n_wins n_ties t path) := by
  unfold Mcts.backpropagate
  rcases hg : Mcts.getNode t path with _ | tgt
  · simpa [hg] using hti
  · simp only [hg]
    exact treeInv_bpAux peq tgt.game.current_player n_plays n_wins n_ties hw ht hs path t hti

/-- Helper: a freshly constructed root satisfies the combined tree
invariant. -/
theorem treeInv_root {M P : Type} (g : Mcts.GameSnap M P) :
    Mcts.TreeInv (Mcts.MTree.mk g ⟨0, 0, 0⟩ []) :=
  Mcts.TreeInv.mk (by norm_num [Mcts.StatsOK]) (by simp) (by simp)

/-- Helper: every tree reachable by the search steps satisfies the
combined invariant. -/
theorem reachable_treeInv {M P : Type} [DecidableEq M]
    (pm : Mcts.GameSnap M P → M → Mcts.GameSnap M P) (peq : P → P → Bool)
    {t : Mcts.MTree M P} (h : Mcts.Reachable pm peq t) : Mcts.TreeInv t := by
  induction h with
  | init g => exact treeInv_root g
  | expand_step path idx _ ih =>
    unfold Mcts.expandAt
    exact treeInv_modifyAt _ (fun u hu => treeInv_expand_fst pm _ u hu)
      (fun u => by rw [expand_fst_stats]) path _ ih
  | backprop_step path n_plays n_wins n_ties hw ht hs _ ih =>
    exact treeInv_backpropagate _ _ _ _ hw ht hs _ path ih

/-- Helper: the combined invariant entails the per-node statistics
bound. -/
theorem treeInv_allStats {M P : Type} {t : Mcts.MTree M P} (h : Mcts.TreeInv t) :
    Mcts.AllStats (fun s => s.n_wins + s.n_ties ≤ s.n_plays) t := by
  induction h with
  | mk hok hch hinv ih => exact Mcts.AllStats.mk hok.2.2.2 ih

/-- Helper: the combined invariant entails the parent/child play-count
ordering. -/
theorem treeInv_playsLE {M P : Type} {t : Mcts.MTree M P} (h : Mcts.TreeInv t) :
    Mcts.PlaysLE t := by
  induction h with
  | mk hok hch hinv ih => exact Mcts.PlaysLE.mk hch ih

/-- C6: on every tree reachable during a search (root construction,
then any interleaving of expand and backpropagate steps — `select` and
`simulate` never touch node statistics), every node satisfies
`n_wins + n_ties ≤ n_plays`, provided each backpropagated batch reports
non-negative counters with `n_wins + n_ties ≤ n_plays`. -/
theorem reachable_wins_ties_le_plays {M P : Type} [DecidableEq M]
    (pm : Mcts.GameSnap M P → M → Mcts.GameSnap M P) (peq : P → P → Bool)
    (t : Mcts.MTree M P) (h : Mcts.Reachable pm peq t) :
    Mcts.AllStats (fun s => s.n_wins + s.n_ties ≤ s.n_plays) t :=
  treeInv_allStats (reachable_treeInv pm peq h)

/-- C6 witness: root construction, one expansion and one
backpropagation of a batch with 3 plays, 1 win, 1 tie. -/
theorem reachable_wins_ties_le_plays_witness :
    Mcts.AllStats (fun s => s.n_wins + s.n_ties ≤ s.n_plays)
      (Mcts.backpropagate Fixtures.peqInt 3 1 1
        (Mcts.expandAt Fixtures.pmNat 0
          (Mcts.MTree.mk Fixtures.snap0 ⟨0, 0, 0⟩ []) []) [0]) :=
  reachable_wins_ties_le_plays Fixtures.pmNat Fixtures.peqInt _
    (Mcts.Reachable.backprop_step [0] 3 1 1 (by norm_num) (by norm_num) (by norm_num)
      (Mcts.Reachable.expand_step [] 0 (Mcts.Reachable.init Fixtures.snap0)))

/-- C7: on every tree reachable during a search, every non-root node's
play count is at most its parent's (each backpropagation credits the
node and all its ancestors with the same `n_plays ≥ 0`, and new
children start at zero plays). -/
theorem reachable_child_plays_le_parent {M P : Type} [DecidableEq M]
    (pm : Mcts.GameSnap M P → M → Mcts.GameSnap M P) (peq : P → P → Bool)
    (t : Mcts.MTree M P) (h : Mcts.Reachable pm peq t) :
    Mcts.PlaysLE t :=
  treeInv_playsLE (reachable_treeInv pm peq h)

/-- C7 witness: root construction, two expansions and one
backpropagation from the first child. -/
theorem reachable_child_plays_le_parent_witness :
    Mcts.PlaysLE
      (Mcts.backpropagate Fixtures.peqInt 2 1 0
        (Mcts.expandAt Fixtures.pmNat 1
          (Mcts.expandAt Fixtures.pmNat 0
            (Mcts.MTree.mk Fixtures.snap0 ⟨0, 0, 0⟩ []) []) []) [0]) :=
  reachable_child_plays_le_parent Fixtures.pmNat Fixtures.peqInt _
    (Mcts.Reachable.backprop_step [0] 2 1 0 (by norm_num) (by norm_num) (by norm_num)
      (Mcts.Reachable.expand_step [] 1
        (Mcts.Reachable.expand_step [] 0 (Mcts.Reachable.init Fixtures.snap0))))

/-- C4 (code-bug evaluation): a deep copy of a `games/tictactoe.py`
player compares unequal to the original under that class's `==`
(object identity — the class defines no `__eq__`), although its
identifying value is unchanged; under the `__eq__` of
`mcts/games/core/player.py` the copy compares equal, as the claim
requires. -/
theorem player_deepcopy_equality_divergence :
    Players.pyIs TicTacToe.playerA (Players.deepcopyPlayer 7 TicTacToe.playerA) = false ∧
    Players.playerValueEq TicTacToe.playerA (Players.deepcopyPlayer 7 TicTacToe.playerA)
      = true ∧
    (Players.deepcopyPlayer 7 TicTacToe.playerA).value = TicTacToe.playerA.value := by
  decide
